import Mathlib

/-!
# The fake Yandex Lockbox backend

A shallow embedding of `pkg/provider/yandex/lockbox/client/fake/fake.go`: the in-memory
stand-in for the Lockbox service used by the provider tests.

Modelling conventions.

* A Go `map[K]V` is a function `K → Option V`; `none` is an absent key.  Reading `m[k]`
  yields the zero value of `V` on an absent key (`GoMap.get`), the comma-ok form
  `_, ok := m[k]` is `GoMap.lookup`, and `m[k] = v` is `GoMap.set`.
* A Go slice is `Option (List α)`, `none` being the `nil` slice.
* A Go `error` is `Option String`: `none` is `nil`, `some msg` the error made by
  `fmt.Errorf(msg)`.
* `*iamkey.Key` is `Option Key` for a type `Key` with decidable equality (`none` is the nil
  pointer) that tells whether the key's `CreatedAt` is set (`IamKey`).  `cmp.Equal` is called
  without options: on two such pointers it is equality of these values, except that it panics
  when both keys have `CreatedAt` set (`cmpPanics`).
  `*lockbox.Payload_Entry` is a type parameter `Entry`.
* A call that may panic returns an `Option`: `none` is the panic, after which the call does
  not return.
* The Go `int` counters are integers without wrap-around: a counter is incremented only by a
  call that also stores a new map key, so a wrap needs more calls than a process can hold keys.
* A method with a pointer receiver that mutates the backend returns the new backend next to
  its Go results.
-/

namespace Fake

/-! ## Go values -/

/-- A Go map: `none` marks an absent key. -/
abbrev GoMap (κ ν : Type) := κ → Option ν

/-- The map made by `make(map[K]V)`. -/
def GoMap.empty {κ ν : Type} : GoMap κ ν := fun _ => none

/-- The comma-ok read `v, ok := m[k]`: `none` when `ok` is false. -/
def GoMap.lookup {κ ν : Type} (m : GoMap κ ν) (k : κ) : Option ν := m k

/-- The plain read `m[k]`, the zero value on an absent key. -/
def GoMap.get {κ ν : Type} [Inhabited ν] (m : GoMap κ ν) (k : κ) : ν := (m k).getD default

/-- The assignment `m[k] = v`. -/
def GoMap.set {κ ν : Type} [DecidableEq κ] (m : GoMap κ ν) (k : κ) (v : ν) : GoMap κ ν :=
  fun k' => if k' = k then some v else m k'

/-- A Go slice; `none` is the nil slice. -/
abbrev Slice (α : Type) := Option (List α)

/-- A Go error value; `none` is nil, `some msg` carries the message. -/
abbrev GoError := Option String

/-- What the read path needs to know of a Go `iamkey.Key` value besides equality of its
contents: whether its `CreatedAt` field is set.  `CreatedAt` is a `*timestamppb.Timestamp`,
which points to a struct with unexported fields. -/
class IamKey (Key : Type) where
  hasCreatedAt : Key → Bool

/-- Whether Go `cmp.Equal(x, y)`, called without options on two `*iamkey.Key` values, panics.
When both pointers are set it walks every field of the two keys, and it panics at the
unexported fields of the timestamp when both keys have `CreatedAt` set. -/
def cmpPanics {Key : Type} [IamKey Key] (x y : Option Key) : Bool :=
  match x, y with
  | some a, some b => IamKey.hasCreatedAt a && IamKey.hasCreatedAt b
  | _, _ => false

/-- Go `cmp.Equal` on two `*iamkey.Key` values: `none` when the call panics, otherwise whether
both are nil or both are set with equal contents. -/
def cmpEqual {Key : Type} [DecidableEq Key] [IamKey Key] (x y : Option Key) : Option Bool :=
  if cmpPanics x y then none else some (decide (x = y))

/-- Go `strconv.FormatInt(i, 10)`: the decimal digits of `i`, with a leading `-` when negative. -/
def formatInt10 : Int → String
  | Int.ofNat n => String.mk (Nat.toDigits 10 n)
  | Int.negSucc n => String.mk ('-' :: Nat.toDigits 10 (n + 1))

/-- Go `func intToString`: `strconv.FormatInt(int64(i), 10)`. -/
def intToString (i : Int) : String := formatInt10 i

/-- The value of a digit character. -/
def digitValue (c : Char) : Nat := c.toNat - 48

/-- The number written by a list of decimal digits, most significant first. -/
def digitsValue (cs : List Char) : Nat := cs.foldl (fun acc c => 10 * acc + digitValue c) 0

/-- Reading a decimal string back as an integer: an optional `-` followed by one or more
digits; anything else does not parse. -/
def parseInt (s : String) : Option Int :=
  match s.data with
  | [] => none
  | c :: cs =>
    if c = '-' then
      if cs ≠ [] ∧ cs.all Char.isDigit then some (-(digitsValue cs : Int)) else none
    else if (c :: cs).all Char.isDigit then some (digitsValue (c :: cs) : Int) else none

/-! ## The data model -/

/-- Go `type secretKey struct`. -/
structure secretKey where
  secretID : String
deriving DecidableEq

/-- Go `type secretValue struct`: the authorized key expected to access the secret. -/
structure secretValue (Key : Type) where
  expectedAuthorizedKey : Option Key

/-- Go `type versionKey struct`. -/
structure versionKey where
  secretID : String
  versionID : String
deriving DecidableEq

/-- Go `type versionValue struct`. -/
structure versionValue (Entry : Type) where
  entries : Slice Entry

instance {Key : Type} : Inhabited (secretValue Key) := ⟨⟨none⟩⟩

instance {Entry : Type} : Inhabited (versionValue Entry) := ⟨⟨none⟩⟩

/-- Go `type LockboxBackend struct`. -/
structure LockboxBackend (Key Entry : Type) where
  lastSecretID : Int
  lastVersionID : GoMap secretKey Int
  secretMap : GoMap secretKey (secretValue Key)
  versionMap : GoMap versionKey (versionValue Entry)

variable {Key Entry : Type}

/-- Go `func NewLockboxBackend`. -/
def NewLockboxBackend : LockboxBackend Key Entry :=
  { lastSecretID := 0
    lastVersionID := GoMap.empty
    secretMap := GoMap.empty
    versionMap := GoMap.empty }

/-! ## The operations -/

/-- Go `func (lb *LockboxBackend) genSecretID`. -/
def LockboxBackend.genSecretID (lb : LockboxBackend Key Entry) :
    LockboxBackend Key Entry × String :=
  let lb1 := { lb with lastSecretID := lb.lastSecretID + 1 }
  (lb1, intToString lb1.lastSecretID)

/-- Go `func (lb *LockboxBackend) genVersionID`. -/
def LockboxBackend.genVersionID (lb : LockboxBackend Key Entry) (secretID : String) :
    LockboxBackend Key Entry × String :=
  let lb1 := { lb with
    lastVersionID := lb.lastVersionID.set ⟨secretID⟩ (lb.lastVersionID.get ⟨secretID⟩ + 1) }
  (lb1, intToString (lb1.lastVersionID.get ⟨secretID⟩))

/-- Go `func (lb *LockboxBackend) CreateSecret`: the new backend, the secretID, the versionID. -/
def LockboxBackend.CreateSecret (lb : LockboxBackend Key Entry) (authorizedKey : Option Key)
    (entries : Slice Entry) : LockboxBackend Key Entry × String × String :=
  let r1 := lb.genSecretID
  let secretID := r1.2
  let r2 := r1.1.genVersionID secretID
  let versionID := r2.2
  let lb3 := { r2.1 with secretMap := r2.1.secretMap.set ⟨secretID⟩ ⟨authorizedKey⟩ }
  let lb4 := { lb3 with versionMap := lb3.versionMap.set ⟨secretID, ""⟩ ⟨entries⟩ }
  let lb5 := { lb4 with versionMap := lb4.versionMap.set ⟨secretID, versionID⟩ ⟨entries⟩ }
  (lb5, secretID, versionID)

/-- Go `func (lb *LockboxBackend) AddVersion`: the new backend and the versionID. -/
def LockboxBackend.AddVersion (lb : LockboxBackend Key Entry) (secretID : String)
    (entries : Slice Entry) : LockboxBackend Key Entry × String :=
  let r1 := lb.genVersionID secretID
  let versionID := r1.2
  let lb2 := { r1.1 with versionMap := r1.1.versionMap.set ⟨secretID, ""⟩ ⟨entries⟩ }
  let lb3 := { lb2 with versionMap := lb2.versionMap.set ⟨secretID, versionID⟩ ⟨entries⟩ }
  (lb3, versionID)

/-- Go `func (lb *LockboxBackend) getEntries`: the pair of Go results `(entries, err)`, or
`none` when `cmp.Equal` panics.  The backend is not written, so no new backend is returned. -/
def LockboxBackend.getEntries [DecidableEq Key] [IamKey Key] (lb : LockboxBackend Key Entry)
    (authorizedKey : Option Key) (secretID versionID : String) :
    Option (Slice Entry × GoError) :=
  if (lb.secretMap.lookup ⟨secretID⟩).isNone then
    some (none, some "secret not found")
  else if (lb.versionMap.lookup ⟨secretID, versionID⟩).isNone then
    some (none, some "version not found")
  else
    match cmpEqual authorizedKey (lb.secretMap.get ⟨secretID⟩).expectedAuthorizedKey with
    | none => none
    | some equal =>
      if !equal then
        some (none, some "permission denied")
      else
        some ((lb.versionMap.get ⟨secretID, versionID⟩).entries, none)

/-- Go `type LockboxClient struct`. -/
structure LockboxClient (Key Entry : Type) where
  fakeLockboxBackend : LockboxBackend Key Entry
  authorizedKey : Option Key

/-- Go `type LockboxClientCreator struct`. -/
structure LockboxClientCreator (Key Entry : Type) where
  Backend : LockboxBackend Key Entry

/-- Go `func (lcc *LockboxClientCreator) Create`: the client and the error. -/
def LockboxClientCreator.Create (lcc : LockboxClientCreator Key Entry) (_apiEndpoint : String)
    (authorizedKey : Option Key) : LockboxClient Key Entry × GoError :=
  (⟨lcc.Backend, authorizedKey⟩, none)

/-- Go `func (lc *LockboxClient) GetPayloadEntries`. -/
def LockboxClient.GetPayloadEntries [DecidableEq Key] [IamKey Key]
    (lc : LockboxClient Key Entry) (secretID versionID : String) :
    Option (Slice Entry × GoError) :=
  lc.fakeLockboxBackend.getEntries lc.authorizedKey secretID versionID

/-- Go `func (lc *LockboxClient) Close`. -/
def LockboxClient.Close (_lc : LockboxClient Key Entry) : GoError := none

/-! ## Call sequences -/

/-- One seeding call on the backend, with its arguments. -/
inductive Call (Key Entry : Type) where
  | createSecret (authorizedKey : Option Key) (entries : Slice Entry)
  | addVersion (secretID : String) (entries : Slice Entry)

/-- What a seeding call returned. -/
inductive Returned where
  | created (secretID versionID : String)
  | added (versionID : String)
deriving DecidableEq

/-- Performing one call: the new backend and what the call returned. -/
def step (lb : LockboxBackend Key Entry) : Call Key Entry → LockboxBackend Key Entry × Returned
  | Call.createSecret k es =>
    let r := lb.CreateSecret k es
    (r.1, Returned.created r.2.1 r.2.2)
  | Call.addVersion s es =>
    let r := lb.AddVersion s es
    (r.1, Returned.added r.2)

/-- The backend after a sequence of calls, performed left to right. -/
def run (lb : LockboxBackend Key Entry) : List (Call Key Entry) → LockboxBackend Key Entry
  | [] => lb
  | c :: cs => run (step lb c).1 cs

/-- The calls of a sequence, each paired with what it returned. -/
def trace (lb : LockboxBackend Key Entry) :
    List (Call Key Entry) → List (Call Key Entry × Returned)
  | [] => []
  | c :: cs => (c, (step lb c).2) :: trace (step lb c).1 cs

/-- A backend that some sequence of `CreateSecret`/`AddVersion` calls builds from
`NewLockboxBackend()`. -/
def Reachable (lb : LockboxBackend Key Entry) : Prop :=
  ∃ cs : List (Call Key Entry), run NewLockboxBackend cs = lb

/-- The secretIDs returned by the `CreateSecret` calls of a trace, in call order. -/
def createdIDs (t : List (Call Key Entry × Returned)) : List String :=
  t.filterMap fun e =>
    match e.2 with
    | Returned.created s _ => some s
    | Returned.added _ => none

/-- Whether a traced call is a `CreateSecret` call. -/
def Call.isCreate : Call Key Entry → Bool
  | Call.createSecret _ _ => true
  | Call.addVersion _ _ => false

/-- Whether a traced call generates a version for secret `s`: an `AddVersion(s, ...)` call, or
a `CreateSecret` call that returned `s`. -/
def generatesVersionFor (s : String) (e : Call Key Entry × Returned) : Bool :=
  match e.1, e.2 with
  | Call.addVersion s' _, _ => decide (s' = s)
  | Call.createSecret _ _, Returned.created s' _ => decide (s' = s)
  | Call.createSecret _ _, Returned.added _ => false

/-- The versionID a call returned. -/
def Returned.versionID : Returned → String
  | Returned.created _ v => v
  | Returned.added v => v

/-- The versionIDs returned, in call order, by the calls that generate a version for `s`. -/
def versionIDsFor (s : String) (t : List (Call Key Entry × Returned)) : List String :=
  (t.filter (generatesVersionFor s)).map fun e => e.2.versionID

/-- Whether a call is an `AddVersion` on secret `s`. -/
def Call.addsVersionTo (s : String) : Call Key Entry → Bool
  | Call.createSecret _ _ => false
  | Call.addVersion s' _ => decide (s' = s)

/-- Both strings parse as integers, and the first parses to the smaller one. -/
def ParsesBelow (a b : String) : Prop :=
  ∃ x y : Int, parseInt a = some x ∧ parseInt b = some y ∧ x < y

/-- The bookkeeping invariant of the backend: no secret is stored under the rendering of a
number above `lastSecretID`, and no version of a secret is stored under the rendering of a
number above that secret's `lastVersionID` counter. -/
def Inv (lb : LockboxBackend Key Entry) : Prop :=
  (∀ j : Int, lb.lastSecretID < j → lb.secretMap ⟨intToString j⟩ = none) ∧
  (∀ (s : String) (j : Int), lb.lastVersionID.get ⟨s⟩ < j →
    lb.versionMap ⟨s, intToString j⟩ = none)

/-- A key for concrete checks: an identifier and an optional creation time. -/
structure SampleKey where
  Id : String
  CreatedAt : Option Int
deriving DecidableEq

instance : IamKey SampleKey := ⟨fun key => key.CreatedAt.isSome⟩

/-- A key without `CreatedAt`. -/
def keyA : SampleKey := ⟨"keyA", none⟩

/-- A second key without `CreatedAt`. -/
def keyB : SampleKey := ⟨"keyB", none⟩

/-- A third key without `CreatedAt`. -/
def keyC : SampleKey := ⟨"keyC", none⟩

/-- A key with `CreatedAt` set. -/
def keyT : SampleKey := ⟨"keyT", some 1700000000⟩

/-- A second key with `CreatedAt` set. -/
def keyU : SampleKey := ⟨"keyU", some 1700000001⟩

/-- A seeded backend used for concrete checks: one secret created with `keyA`, a second version
added to it, and a version added to the secret ID "9", which was never created. -/
def sampleBackend : LockboxBackend SampleKey String :=
  run NewLockboxBackend
    [Call.createSecret (some keyA) (some ["entryX"]),
     Call.addVersion "1" (some ["entryY"]),
     Call.addVersion "9" (some ["entryZ"])]

/-- A seeded backend whose one secret was created with `keyT`, a key with `CreatedAt` set. -/
def stampedBackend : LockboxBackend SampleKey String :=
  run NewLockboxBackend [Call.createSecret (some keyT) (some ["entryX"])]

/-- The alias invariant of the backend: a secret ID either has no stored version at all, or
its alias `""` is present and holds what is stored under the rendering of its version
counter. -/
def AliasInv (lb : LockboxBackend Key Entry) : Prop :=
  ∀ s : String, (∀ v : String, lb.versionMap ⟨s, v⟩ = none) ∨
    (lb.versionMap ⟨s, ""⟩ ≠ none ∧
      lb.versionMap ⟨s, ""⟩ = lb.versionMap ⟨s, intToString (lb.lastVersionID.get ⟨s⟩)⟩)

/-! ## Reads as state transformers

The read path once more, now threading the backend through every statement, so that what a
read leaves behind can be compared with what it found.  An index expression on a Go map
evaluates to a value and leaves the map as it is. -/

/-- The comma-ok read `_, ok := lb.secretMap[key]`. -/
def lookupSecretM (key : secretKey) :
    StateM (LockboxBackend Key Entry) (Option (secretValue Key)) :=
  fun lb => (lb.secretMap.lookup key, lb)

/-- The comma-ok read `_, ok := lb.versionMap[key]`. -/
def lookupVersionM (key : versionKey) :
    StateM (LockboxBackend Key Entry) (Option (versionValue Entry)) :=
  fun lb => (lb.versionMap.lookup key, lb)

/-- The plain read `lb.secretMap[key]`. -/
def getSecretM (key : secretKey) : StateM (LockboxBackend Key Entry) (secretValue Key) :=
  fun lb => (lb.secretMap.get key, lb)

/-- The plain read `lb.versionMap[key]`. -/
def getVersionM (key : versionKey) : StateM (LockboxBackend Key Entry) (versionValue Entry) :=
  fun lb => (lb.versionMap.get key, lb)

/-- Go `func (lb *LockboxBackend) getEntries`, statement by statement over the backend it
points to. -/
def getEntriesM [DecidableEq Key] [IamKey Key] (authorizedKey : Option Key)
    (secretID versionID : String) :
    StateM (LockboxBackend Key Entry) (Option (Slice Entry × GoError)) := do
  let secret ← lookupSecretM ⟨secretID⟩
  if secret.isNone then
    return some (none, some "secret not found")
  else
    let version ← lookupVersionM ⟨secretID, versionID⟩
    if version.isNone then
      return some (none, some "version not found")
    else
      let expected ← getSecretM ⟨secretID⟩
      match cmpEqual authorizedKey expected.expectedAuthorizedKey with
      | none => return none
      | some equal =>
        if !equal then
          return some (none, some "permission denied")
        else
          let stored ← getVersionM ⟨secretID, versionID⟩
          return some (stored.entries, none)

/-- Go `func (lc *LockboxClient) GetPayloadEntries`, over the backend the client points to. -/
def GetPayloadEntriesM [DecidableEq Key] [IamKey Key] (authorizedKey : Option Key)
    (secretID versionID : String) :
    StateM (LockboxBackend Key Entry) (Option (Slice Entry × GoError)) :=
  getEntriesM authorizedKey secretID versionID

/-- Go `func (lc *LockboxClient) Close`, over the backend the client points to. -/
def CloseM : StateM (LockboxBackend Key Entry) GoError :=
  pure none

/-! ## Decimal renderings -/

theorem digitChar_isDigit : ∀ d, d < 10 → (Nat.digitChar d).isDigit = true := by decide

theorem digitValue_digitChar : ∀ d, d < 10 → digitValue (Nat.digitChar d) = d := by decide

theorem toDigitsCore_isDigit (fuel : Nat) : ∀ (n : Nat) (acc : List Char),
    (∀ c ∈ acc, c.isDigit = true) → ∀ c ∈ Nat.toDigitsCore 10 fuel n acc, c.isDigit = true := by
  induction fuel with
  | zero => intro n acc h; simpa [Nat.toDigitsCore] using h
  | succ fuel ih =>
    intro n acc h
    have hd : (Nat.digitChar (n % 10)).isDigit = true :=
      digitChar_isDigit _ (Nat.mod_lt _ (by decide))
    have hacc : ∀ c ∈ Nat.digitChar (n % 10) :: acc, c.isDigit = true := by
      intro c hc
      rcases List.mem_cons.mp hc with rfl | hc
      · exact hd
      · exact h c hc
    simp only [Nat.toDigitsCore]
    split
    · exact hacc
    · exact ih _ _ hacc

theorem toDigitsCore_ne_nil (fuel : Nat) : ∀ (n : Nat) (acc : List Char),
    0 < fuel → Nat.toDigitsCore 10 fuel n acc ≠ [] := by
  induction fuel with
  | zero => intro n acc h; exact absurd h (by decide)
  | succ fuel ih =>
    intro n acc _
    simp only [Nat.toDigitsCore]
    split
    · simp
    · rcases Nat.eq_zero_or_pos fuel with h0 | hpos
      · subst h0; simp [Nat.toDigitsCore]
      · exact ih _ _ hpos

theorem foldl_toDigitsCore (fuel : Nat) : ∀ (n : Nat) (acc : List Char), n < fuel →
    (Nat.toDigitsCore 10 fuel n acc).foldl (fun a c => 10 * a + digitValue c) 0
      = acc.foldl (fun a c => 10 * a + digitValue c) n := by
  induction fuel with
  | zero => intro n acc h; exact absurd h (Nat.not_lt_zero _)
  | succ fuel ih =>
    intro n acc h
    have hv : digitValue (Nat.digitChar (n % 10)) = n % 10 :=
      digitValue_digitChar _ (Nat.mod_lt _ (by decide))
    simp only [Nat.toDigitsCore]
    split
    · next h0 =>
      have hn : n % 10 = n := by omega
      simp only [List.foldl_cons, hv]
      rw [Nat.mul_zero, Nat.zero_add, hn]
    · next h0 =>
      have hlt : n / 10 < fuel := by omega
      rw [ih _ _ hlt]
      have hn : 10 * (n / 10) + n % 10 = n := by omega
      simp only [List.foldl_cons, hv]
      rw [hn]

theorem toDigits_isDigit (n : Nat) : ∀ c ∈ Nat.toDigits 10 n, c.isDigit = true :=
  toDigitsCore_isDigit _ _ _ (by simp)

theorem toDigits_ne_nil (n : Nat) : Nat.toDigits 10 n ≠ [] :=
  toDigitsCore_ne_nil _ _ _ (Nat.succ_pos n)

theorem digitsValue_toDigits (n : Nat) : digitsValue (Nat.toDigits 10 n) = n := by
  unfold digitsValue Nat.toDigits
  rw [foldl_toDigitsCore _ _ _ (Nat.lt_succ_self n)]
  rfl

/-- Parsing a rendered integer gives the integer back. -/
theorem parseInt_intToString (i : Int) : parseInt (intToString i) = some i := by
  cases i with
  | ofNat n =>
    have hne := toDigits_ne_nil n
    have hall := toDigits_isDigit n
    have hval := digitsValue_toDigits n
    unfold intToString formatInt10 parseInt
    simp only
    cases hds : Nat.toDigits 10 n with
    | nil => exact absurd hds hne
    | cons c cs =>
      rw [hds] at hall hval
      have hc : c ≠ '-' := by
        intro hc
        have := hall c (by simp)
        rw [hc] at this
        exact absurd this (by decide)
      have hall2 : (c :: cs).all Char.isDigit = true := List.all_eq_true.mpr hall
      simp only [hc, if_false, hall2, if_true, hval]
      rfl
  | negSucc n =>
    have hne := toDigits_ne_nil (n + 1)
    have hall : (Nat.toDigits 10 (n + 1)).all Char.isDigit = true :=
      List.all_eq_true.mpr (toDigits_isDigit (n + 1))
    have hval := digitsValue_toDigits (n + 1)
    unfold intToString formatInt10 parseInt
    simp only [if_true, hne, hall, hval, ne_eq, not_false_eq_true, and_self]
    rfl

/-- Different integers have different renderings. -/
theorem intToString_injective {i j : Int} (h : intToString i = intToString j) : i = j := by
  have := congrArg parseInt h
  rw [parseInt_intToString, parseInt_intToString] at this
  exact Option.some.inj this

/-- The rendering of an integer is never the empty string. -/
theorem intToString_ne_empty (i : Int) : intToString i ≠ "" := by
  intro h
  have := congrArg parseInt h
  have hempty : parseInt "" = none := by decide
  rw [parseInt_intToString, hempty] at this
  cases this

/-! ## Reading: `getEntries` -/

/-- The read of a stored version of an existing secret, when the comparison of the credentials
does not panic. -/
theorem getEntries_of_present [DecidableEq Key] [IamKey Key] (lb : LockboxBackend Key Entry)
    (k : Option Key) (s v : String) (sv : secretValue Key) (vv : versionValue Entry)
    (hs : lb.secretMap ⟨s⟩ = some sv) (hv : lb.versionMap ⟨s, v⟩ = some vv)
    (hcmp : cmpPanics k sv.expectedAuthorizedKey = false) :
    lb.getEntries k s v =
      some (if k = sv.expectedAuthorizedKey then (vv.entries, none)
        else (none, some "permission denied")) := by
  unfold LockboxBackend.getEntries GoMap.lookup GoMap.get cmpEqual
  by_cases hk : k = sv.expectedAuthorizedKey
  · subst hk
    simp [hs, hv, hcmp]
  · simp [hs, hv, hcmp, hk]

/-- The read of a stored version of an existing secret panics when the comparison of the
credentials does. -/
theorem getEntries_of_panic [DecidableEq Key] [IamKey Key] (lb : LockboxBackend Key Entry)
    (k : Option Key) (s v : String) (sv : secretValue Key) (vv : versionValue Entry)
    (hs : lb.secretMap ⟨s⟩ = some sv) (hv : lb.versionMap ⟨s, v⟩ = some vv)
    (hcmp : cmpPanics k sv.expectedAuthorizedKey = true) :
    lb.getEntries k s v = none := by
  unfold LockboxBackend.getEntries GoMap.lookup GoMap.get cmpEqual
  simp [hs, hv, hcmp]

/-- C1, refuted as stated: in a backend whose secret "1" was created with a key that has
`CreatedAt` set, the secret exists, version "1" exists and the presented key equals the stored
one, yet `getEntries` does not return: `cmp.Equal` panics. -/
theorem getEntries_equal_key_no_return :
    ¬ (∀ (lb : LockboxBackend SampleKey String) (k : Option SampleKey) (s v : String),
        (∃ r, lb.getEntries k s v = some r ∧ r.2 = none) ↔
          ((∃ sv, lb.secretMap.lookup ⟨s⟩ = some sv ∧ k = sv.expectedAuthorizedKey) ∧
            ∃ vv, lb.versionMap.lookup ⟨s, v⟩ = some vv)) := by
  intro h
  have hpanic : stampedBackend.getEntries (some keyT) "1" "1" = none := by decide
  obtain ⟨r, hr, _⟩ := (h stampedBackend (some keyT) "1" "1").mpr
    ⟨⟨⟨some keyT⟩, rfl, rfl⟩, ⟨⟨some ["entryX"]⟩, rfl⟩⟩
  rw [hpanic] at hr
  cases hr

/-- C1, amended: unless `s` is a key of `secretMap`, `(s, v)` is a key of `versionMap` and both
`k` and the credential stored for `s` have `CreatedAt` set, `getEntries(k, s, v)` returns; it
returns without error exactly when `s` is a key of `secretMap` with stored credential `k` and
`(s, v)` is a key of `versionMap`; and when it returns without error, the returned entries are
the entries stored in `versionMap` under `(s, v)`. -/
theorem getEntries_succeeds_iff [DecidableEq Key] [IamKey Key] (lb : LockboxBackend Key Entry)
    (k : Option Key) (s v : String)
    (hcmp : ∀ sv, lb.secretMap.lookup ⟨s⟩ = some sv → lb.versionMap.lookup ⟨s, v⟩ ≠ none →
      cmpPanics k sv.expectedAuthorizedKey = false) :
    ∃ r, lb.getEntries k s v = some r ∧
      (r.2 = none ↔
        ((∃ sv, lb.secretMap.lookup ⟨s⟩ = some sv ∧ k = sv.expectedAuthorizedKey) ∧
          ∃ vv, lb.versionMap.lookup ⟨s, v⟩ = some vv)) ∧
      (r.2 = none →
        ∃ vv, lb.versionMap.lookup ⟨s, v⟩ = some vv ∧ r.1 = vv.entries) := by
  cases hs : lb.secretMap ⟨s⟩ with
  | none =>
    refine ⟨(none, some "secret not found"), ?_, ?_, ?_⟩
    · simp [LockboxBackend.getEntries, GoMap.lookup, hs]
    · simp [GoMap.lookup, hs]
    · simp
  | some sv =>
    cases hv : lb.versionMap ⟨s, v⟩ with
    | none =>
      refine ⟨(none, some "version not found"), ?_, ?_, ?_⟩
      · simp [LockboxBackend.getEntries, GoMap.lookup, hs, hv]
      · simp [GoMap.lookup, hv]
      · simp
    | some vv =>
      have hno := hcmp sv hs (by simp [GoMap.lookup, hv])
      rw [getEntries_of_present lb k s v sv vv hs hv hno]
      by_cases hk : k = sv.expectedAuthorizedKey
      · exact ⟨_, rfl, by simp [GoMap.lookup, hs, hv, hk], by simp [GoMap.lookup, hv, hk]⟩
      · exact ⟨_, rfl, by simp [GoMap.lookup, hs, hv, hk], by simp [hk]⟩

/-- C2: when `s` is not a key of `secretMap`, `getEntries(k, s, v)` returns the nil slice and
the error "secret not found", for every credential and every versionID, whatever `versionMap`
holds. -/
theorem getEntries_secret_not_found [DecidableEq Key] [IamKey Key]
    (lb : LockboxBackend Key Entry) (s : String) (hs : lb.secretMap.lookup ⟨s⟩ = none)
    (k : Option Key) (v : String) :
    lb.getEntries k s v = some (none, some "secret not found") := by
  unfold LockboxBackend.getEntries
  simp [hs]

/-- C3: when `s` is a key of `secretMap` and `(s, v)` is not a key of `versionMap`,
`getEntries(k, s, v)` returns the nil slice and the error "version not found" for every
credential `k`, equal to the stored one or not. -/
theorem getEntries_version_not_found [DecidableEq Key] [IamKey Key]
    (lb : LockboxBackend Key Entry) (s v : String) (hs : lb.secretMap.lookup ⟨s⟩ ≠ none)
    (hv : lb.versionMap.lookup ⟨s, v⟩ = none) (k : Option Key) :
    lb.getEntries k s v = some (none, some "version not found") := by
  unfold LockboxBackend.getEntries
  cases h : lb.secretMap.lookup ⟨s⟩ with
  | none => exact absurd h hs
  | some sv => simp [hv]

/-- C4, refuted as stated: in a backend whose secret "1" was created with a key that has
`CreatedAt` set, a read with another key that has `CreatedAt` set does not return "permission
denied": `cmp.Equal` panics. -/
theorem getEntries_unequal_key_no_return :
    ¬ (∀ (lb : LockboxBackend SampleKey String) (s v : String) (sv : secretValue SampleKey),
        lb.secretMap.lookup ⟨s⟩ = some sv → lb.versionMap.lookup ⟨s, v⟩ ≠ none →
        ∀ k : Option SampleKey, k ≠ sv.expectedAuthorizedKey →
          lb.getEntries k s v = some (none, some "permission denied")) := by
  intro h
  have hpanic : stampedBackend.getEntries (some keyU) "1" "1" = none := by decide
  have hv : stampedBackend.versionMap.lookup ⟨"1", "1"⟩ ≠ none := by
    have hv1 : stampedBackend.versionMap.lookup ⟨"1", "1"⟩ = some ⟨some ["entryX"]⟩ := rfl
    rw [hv1]
    exact Option.some_ne_none _
  have h2 := h stampedBackend "1" "1" ⟨some keyT⟩ rfl hv (some keyU) (by decide)
  rw [hpanic] at h2
  cases h2

/-- C4, amended: when `s` is a key of `secretMap`, `(s, v)` is a key of `versionMap`, `k` is
not the credential stored for `s`, and `k` and the stored credential do not both have
`CreatedAt` set, `getEntries(k, s, v)` returns the nil slice and the error
"permission denied". -/
theorem getEntries_permission_denied [DecidableEq Key] [IamKey Key]
    (lb : LockboxBackend Key Entry) (s v : String) (sv : secretValue Key)
    (hs : lb.secretMap.lookup ⟨s⟩ = some sv) (hv : lb.versionMap.lookup ⟨s, v⟩ ≠ none)
    (k : Option Key) (hk : k ≠ sv.expectedAuthorizedKey)
    (hcmp : cmpPanics k sv.expectedAuthorizedKey = false) :
    lb.getEntries k s v = some (none, some "permission denied") := by
  cases h : lb.versionMap.lookup ⟨s, v⟩ with
  | none => exact absurd h hv
  | some vv =>
    rw [getEntries_of_present lb k s v sv vv hs h hcmp, if_neg hk]

theorem getEntries_succeeds_iff_witness :
    ∃ r, sampleBackend.getEntries (some keyA) "1" "2" = some r ∧
      (r.2 = none ↔
        ((∃ sv, sampleBackend.secretMap.lookup ⟨"1"⟩ = some sv ∧
            some keyA = sv.expectedAuthorizedKey) ∧
          ∃ vv, sampleBackend.versionMap.lookup ⟨"1", "2"⟩ = some vv)) ∧
      (r.2 = none →
        ∃ vv, sampleBackend.versionMap.lookup ⟨"1", "2"⟩ = some vv ∧ r.1 = vv.entries) :=
  getEntries_succeeds_iff sampleBackend (some keyA) "1" "2"
    (fun sv _ _ => by rcases sv with ⟨_ | b⟩ <;> rfl)

theorem getEntries_secret_not_found_witness :
    sampleBackend.versionMap.lookup ⟨"9", "1"⟩ = some ⟨some ["entryZ"]⟩ ∧
      sampleBackend.getEntries (some keyA) "9" "1" = some (none, some "secret not found") :=
  ⟨rfl, getEntries_secret_not_found sampleBackend "9" rfl (some keyA) "1"⟩

theorem getEntries_version_not_found_witness :
    sampleBackend.getEntries (some keyB) "1" "3" = some (none, some "version not found") :=
  getEntries_version_not_found sampleBackend "1" "3"
    (by
      have h : sampleBackend.secretMap.lookup ⟨"1"⟩ = some ⟨some keyA⟩ := rfl
      rw [h]
      exact Option.some_ne_none _)
    rfl (some keyB)

theorem getEntries_permission_denied_witness :
    sampleBackend.getEntries (some keyB) "1" "2" = some (none, some "permission denied") :=
  getEntries_permission_denied sampleBackend "1" "2" ⟨some keyA⟩ rfl
    (by
      have h : sampleBackend.versionMap.lookup ⟨"1", "2"⟩ = some ⟨some ["entryY"]⟩ := rfl
      rw [h]
      exact Option.some_ne_none _)
    (some keyB) (by decide) rfl

/-! ## What the seeding calls write -/

theorem GoMap.get_set {κ ν : Type} [DecidableEq κ] [Inhabited ν] (m : GoMap κ ν) (k k' : κ)
    (v : ν) : (m.set k v).get k' = if k' = k then v else m.get k' := by
  unfold GoMap.get GoMap.set
  split <;> rfl

theorem addVersion_ret (lb : LockboxBackend Key Entry) (s : String) (es : Slice Entry) :
    (lb.AddVersion s es).2 = intToString (lb.lastVersionID.get ⟨s⟩ + 1) := by
  simp [LockboxBackend.AddVersion, LockboxBackend.genVersionID, GoMap.get_set]

theorem addVersion_lastSecretID (lb : LockboxBackend Key Entry) (s : String)
    (es : Slice Entry) : (lb.AddVersion s es).1.lastSecretID = lb.lastSecretID := rfl

theorem addVersion_secretMap (lb : LockboxBackend Key Entry) (s : String) (es : Slice Entry) :
    (lb.AddVersion s es).1.secretMap = lb.secretMap := rfl

theorem addVersion_lastVersionID (lb : LockboxBackend Key Entry) (s : String)
    (es : Slice Entry) (key : secretKey) :
    (lb.AddVersion s es).1.lastVersionID.get key =
      if key = ⟨s⟩ then lb.lastVersionID.get ⟨s⟩ + 1 else lb.lastVersionID.get key := by
  simp [LockboxBackend.AddVersion, LockboxBackend.genVersionID, GoMap.get_set]

theorem addVersion_versionMap (lb : LockboxBackend Key Entry) (s : String) (es : Slice Entry)
    (key : versionKey) :
    (lb.AddVersion s es).1.versionMap key =
      if key = ⟨s, intToString (lb.lastVersionID.get ⟨s⟩ + 1)⟩ then some ⟨es⟩
      else if key = ⟨s, ""⟩ then some ⟨es⟩ else lb.versionMap key := by
  simp [LockboxBackend.AddVersion, LockboxBackend.genVersionID, GoMap.get_set, GoMap.set]

theorem createSecret_secretID (lb : LockboxBackend Key Entry) (k : Option Key)
    (es : Slice Entry) : (lb.CreateSecret k es).2.1 = intToString (lb.lastSecretID + 1) := rfl

theorem createSecret_versionID (lb : LockboxBackend Key Entry) (k : Option Key)
    (es : Slice Entry) :
    (lb.CreateSecret k es).2.2 =
      intToString (lb.lastVersionID.get ⟨intToString (lb.lastSecretID + 1)⟩ + 1) := by
  simp [LockboxBackend.CreateSecret, LockboxBackend.genVersionID, LockboxBackend.genSecretID,
    GoMap.get_set]

theorem createSecret_lastSecretID (lb : LockboxBackend Key Entry) (k : Option Key)
    (es : Slice Entry) : (lb.CreateSecret k es).1.lastSecretID = lb.lastSecretID + 1 := rfl

theorem createSecret_secretMap (lb : LockboxBackend Key Entry) (k : Option Key)
    (es : Slice Entry) (key : secretKey) :
    (lb.CreateSecret k es).1.secretMap key =
      if key = ⟨intToString (lb.lastSecretID + 1)⟩ then some ⟨k⟩ else lb.secretMap key := by
  simp [LockboxBackend.CreateSecret, LockboxBackend.genVersionID, LockboxBackend.genSecretID,
    GoMap.set]

theorem createSecret_lastVersionID (lb : LockboxBackend Key Entry) (k : Option Key)
    (es : Slice Entry) (key : secretKey) :
    (lb.CreateSecret k es).1.lastVersionID.get key =
      if key = ⟨intToString (lb.lastSecretID + 1)⟩ then
        lb.lastVersionID.get ⟨intToString (lb.lastSecretID + 1)⟩ + 1
      else lb.lastVersionID.get key := by
  simp [LockboxBackend.CreateSecret, LockboxBackend.genVersionID, LockboxBackend.genSecretID,
    GoMap.get_set]

theorem createSecret_versionMap (lb : LockboxBackend Key Entry) (k : Option Key)
    (es : Slice Entry) (key : versionKey) :
    (lb.CreateSecret k es).1.versionMap key =
      if key = ⟨intToString (lb.lastSecretID + 1),
          intToString (lb.lastVersionID.get ⟨intToString (lb.lastSecretID + 1)⟩ + 1)⟩ then
        some ⟨es⟩
      else if key = ⟨intToString (lb.lastSecretID + 1), ""⟩ then some ⟨es⟩
      else lb.versionMap key := by
  simp [LockboxBackend.CreateSecret, LockboxBackend.genVersionID, LockboxBackend.genSecretID,
    GoMap.get_set, GoMap.set]

/-! ## The bookkeeping invariant -/

theorem inv_new : Inv (NewLockboxBackend : LockboxBackend Key Entry) :=
  ⟨fun _ _ => rfl, fun _ _ _ => rfl⟩

theorem inv_addVersion (lb : LockboxBackend Key Entry) (h : Inv lb) (s : String)
    (es : Slice Entry) : Inv (lb.AddVersion s es).1 := by
  refine ⟨fun j hj => ?_, fun s' j hj => ?_⟩
  · rw [addVersion_secretMap]
    exact h.1 j (by rwa [addVersion_lastSecretID] at hj)
  · rw [addVersion_lastVersionID] at hj
    rw [addVersion_versionMap]
    by_cases hs : s' = s
    · subst hs
      simp only [if_true] at hj
      have h1 : intToString j ≠ intToString (lb.lastVersionID.get ⟨s'⟩ + 1) := fun he =>
        absurd (intToString_injective he) (by omega)
      have h2 : intToString j ≠ "" := intToString_ne_empty j
      simp only [versionKey.mk.injEq, true_and, h1, h2, if_false]
      exact h.2 s' j (by omega)
    · have hk : (⟨s'⟩ : secretKey) ≠ ⟨s⟩ := fun he => hs (secretKey.mk.inj he)
      simp only [hk, if_false] at hj
      simp only [versionKey.mk.injEq, hs, false_and, if_false]
      exact h.2 s' j hj

theorem inv_createSecret (lb : LockboxBackend Key Entry) (h : Inv lb) (k : Option Key)
    (es : Slice Entry) : Inv (lb.CreateSecret k es).1 := by
  refine ⟨fun j hj => ?_, fun s' j hj => ?_⟩
  · rw [createSecret_lastSecretID] at hj
    rw [createSecret_secretMap]
    have h1 : intToString j ≠ intToString (lb.lastSecretID + 1) := fun he =>
      absurd (intToString_injective he) (by omega)
    simp only [secretKey.mk.injEq, h1, if_false]
    exact h.1 j (by omega)
  · rw [createSecret_lastVersionID] at hj
    rw [createSecret_versionMap]
    by_cases hs : s' = intToString (lb.lastSecretID + 1)
    · subst hs
      simp only [if_true] at hj
      have h1 : intToString j ≠
          intToString (lb.lastVersionID.get ⟨intToString (lb.lastSecretID + 1)⟩ + 1) :=
        fun he => absurd (intToString_injective he) (by omega)
      have h2 : intToString j ≠ "" := intToString_ne_empty j
      simp only [versionKey.mk.injEq, true_and, h1, h2, if_false]
      exact h.2 _ j (by omega)
    · have hk : (⟨s'⟩ : secretKey) ≠ ⟨intToString (lb.lastSecretID + 1)⟩ :=
        fun he => hs (secretKey.mk.inj he)
      simp only [hk, if_false] at hj
      simp only [versionKey.mk.injEq, hs, false_and, if_false]
      exact h.2 s' j hj

theorem inv_step (lb : LockboxBackend Key Entry) (h : Inv lb) (c : Call Key Entry) :
    Inv (step lb c).1 := by
  cases c with
  | createSecret k es => exact inv_createSecret lb h k es
  | addVersion s es => exact inv_addVersion lb h s es

theorem inv_run (cs : List (Call Key Entry)) :
    ∀ lb : LockboxBackend Key Entry, Inv lb → Inv (run lb cs) := by
  induction cs with
  | nil => intro lb h; exact h
  | cons c cs ih => intro lb h; exact ih _ (inv_step lb h c)

theorem inv_of_reachable (lb : LockboxBackend Key Entry) (h : Reachable lb) : Inv lb := by
  obtain ⟨cs, rfl⟩ := h
  exact inv_run cs _ inv_new

/-! ## Seeding: `CreateSecret` and `AddVersion` -/

theorem createSecret_stores (lb : LockboxBackend Key Entry) (k : Option Key)
    (es : Slice Entry) :
    (lb.CreateSecret k es).1.secretMap ⟨(lb.CreateSecret k es).2.1⟩ = some ⟨k⟩ ∧
      (lb.CreateSecret k es).1.versionMap
          ⟨(lb.CreateSecret k es).2.1, (lb.CreateSecret k es).2.2⟩ = some ⟨es⟩ ∧
      (lb.CreateSecret k es).1.versionMap ⟨(lb.CreateSecret k es).2.1, ""⟩ = some ⟨es⟩ := by
  refine ⟨?_, ?_, ?_⟩
  · rw [createSecret_secretMap, createSecret_secretID]
    simp
  · rw [createSecret_versionMap, createSecret_secretID, createSecret_versionID]
    simp
  · rw [createSecret_versionMap, createSecret_secretID]
    split_ifs <;> simp_all

/-- C5, refuted as stated: after `CreateSecret` on a new backend with a key that has
`CreatedAt` set, the read of the returned secret and version with that same key does not
return: `cmp.Equal` panics. -/
theorem createSecret_then_read_no_return :
    ¬ (∀ (lb : LockboxBackend SampleKey String) (k : Option SampleKey) (es : Slice String),
        (lb.CreateSecret k es).1.getEntries k (lb.CreateSecret k es).2.1
            (lb.CreateSecret k es).2.2 = some (es, none) ∧
          (lb.CreateSecret k es).1.getEntries k (lb.CreateSecret k es).2.1 ""
            = some (es, none)) := by
  intro h
  have h2 := (h NewLockboxBackend (some keyT) (some ["entryX"])).1
  revert h2
  decide

/-- C5, amended: for every backend, every credential `k` that is nil or has no `CreatedAt`
set, and entries `es`, when `CreateSecret(k, es)` returns `(s, v)`, then in the resulting
backend `getEntries(k, s, v)` and `getEntries(k, s, "")` both return `es` without error. -/
theorem createSecret_then_read [DecidableEq Key] [IamKey Key] (lb : LockboxBackend Key Entry)
    (k : Option Key) (es : Slice Entry) (hk : cmpPanics k k = false) :
    (lb.CreateSecret k es).1.getEntries k (lb.CreateSecret k es).2.1 (lb.CreateSecret k es).2.2
        = some (es, none) ∧
      (lb.CreateSecret k es).1.getEntries k (lb.CreateSecret k es).2.1 ""
        = some (es, none) := by
  obtain ⟨h1, h2, h3⟩ := createSecret_stores lb k es
  constructor
  · rw [getEntries_of_present _ k _ _ ⟨k⟩ ⟨es⟩ h1 h2 hk, if_pos rfl]
  · rw [getEntries_of_present _ k _ _ ⟨k⟩ ⟨es⟩ h1 h3 hk, if_pos rfl]

theorem createSecret_then_read_witness :
    (sampleBackend.CreateSecret (some keyB) (some ["entryW"])).2 = ("2", "1") ∧
      (sampleBackend.CreateSecret (some keyB) (some ["entryW"])).1.getEntries (some keyB)
          "2" "1" = some (some ["entryW"], none) ∧
      (sampleBackend.CreateSecret (some keyB) (some ["entryW"])).1.getEntries (some keyB)
          "2" "" = some (some ["entryW"], none) :=
  ⟨rfl, createSecret_then_read sampleBackend (some keyB) (some ["entryW"]) rfl⟩

/-- A call that is not an `AddVersion` on `s` leaves the credential and every version of an
existing secret `s` as they were. -/
theorem step_other_secret (lb : LockboxBackend Key Entry) (hinv : Inv lb) (s : String)
    (hs : lb.secretMap ⟨s⟩ ≠ none) (c : Call Key Entry) (hc : c.addsVersionTo s = false) :
    (step lb c).1.secretMap ⟨s⟩ = lb.secretMap ⟨s⟩ ∧
      ∀ v, (step lb c).1.versionMap ⟨s, v⟩ = lb.versionMap ⟨s, v⟩ := by
  cases c with
  | createSecret k es =>
    have hne : s ≠ intToString (lb.lastSecretID + 1) := by
      intro he
      exact hs (he ▸ hinv.1 (lb.lastSecretID + 1) (by omega))
    refine ⟨?_, fun v => ?_⟩
    · show (lb.CreateSecret k es).1.secretMap ⟨s⟩ = _
      rw [createSecret_secretMap]
      simp [hne]
    · show (lb.CreateSecret k es).1.versionMap ⟨s, v⟩ = _
      rw [createSecret_versionMap]
      simp [hne]
  | addVersion s' es =>
    have hne : s ≠ s' := by
      intro he
      simp [Call.addsVersionTo, he] at hc
    refine ⟨rfl, fun v => ?_⟩
    show (lb.AddVersion s' es).1.versionMap ⟨s, v⟩ = _
    rw [addVersion_versionMap]
    simp [hne]

theorem run_other_secret (s : String) (cs : List (Call Key Entry)) :
    ∀ lb : LockboxBackend Key Entry, Inv lb → lb.secretMap ⟨s⟩ ≠ none →
      (∀ c ∈ cs, c.addsVersionTo s = false) →
      (run lb cs).secretMap ⟨s⟩ = lb.secretMap ⟨s⟩ ∧
        ∀ v, (run lb cs).versionMap ⟨s, v⟩ = lb.versionMap ⟨s, v⟩ := by
  induction cs with
  | nil => intro lb _ _ _; exact ⟨rfl, fun _ => rfl⟩
  | cons c cs ih =>
    intro lb hinv hs hcs
    have h1 := step_other_secret lb hinv s hs c (hcs c (List.mem_cons_self _ _))
    have h2 := ih (step lb c).1 (inv_step lb hinv c) (by rw [h1.1]; exact hs)
      (fun c' hc' => hcs c' (List.mem_cons_of_mem _ hc'))
    exact ⟨h2.1.trans h1.1, fun v => (h2.2 v).trans (h1.2 v)⟩

/-- C6, refuted as stated: in the reachable backend whose secret "1" was created with a key
that has `CreatedAt` set, after `AddVersion("1", es)` the read of `("1", "")` with the stored
key does not return: `cmp.Equal` panics. -/
theorem latest_alias_no_return :
    ¬ (∀ (lb : LockboxBackend SampleKey String), Reachable lb →
        ∀ (s : String) (sv : secretValue SampleKey), lb.secretMap.lookup ⟨s⟩ = some sv →
        ∀ (es : Slice String) (cs : List (Call SampleKey String)),
          (∀ c ∈ cs, c.addsVersionTo s = false) →
          (run (lb.AddVersion s es).1 cs).getEntries sv.expectedAuthorizedKey s ""
            = some (es, none)) := by
  intro h
  have h2 := h stampedBackend ⟨_, rfl⟩ "1" ⟨some keyT⟩ rfl (some ["entryY"]) []
    (fun _ hc => absurd hc (List.not_mem_nil _))
  revert h2
  decide

/-- C6, amended: in a reachable backend where secret `s` exists with a credential `k` that is
nil or has no `CreatedAt` set, after `AddVersion(s, es)` followed by any sequence of
`CreateSecret` calls and of `AddVersion` calls on other secret IDs, `getEntries(k, s, "")`
returns `es` without error. -/
theorem latest_alias_follows_last_write [DecidableEq Key] [IamKey Key]
    (lb : LockboxBackend Key Entry) (hreach : Reachable lb) (s : String) (sv : secretValue Key)
    (hs : lb.secretMap.lookup ⟨s⟩ = some sv)
    (hcmp : cmpPanics sv.expectedAuthorizedKey sv.expectedAuthorizedKey = false)
    (es : Slice Entry) (cs : List (Call Key Entry))
    (hcs : ∀ c ∈ cs, c.addsVersionTo s = false) :
    (run (lb.AddVersion s es).1 cs).getEntries sv.expectedAuthorizedKey s ""
      = some (es, none) := by
  have hinv : Inv (lb.AddVersion s es).1 := inv_addVersion lb (inv_of_reachable lb hreach) s es
  have hs1 : (lb.AddVersion s es).1.secretMap ⟨s⟩ = some sv := hs
  have hv1 : (lb.AddVersion s es).1.versionMap ⟨s, ""⟩ = some ⟨es⟩ := by
    rw [addVersion_versionMap]
    split_ifs <;> simp_all
  obtain ⟨h1, h2⟩ := run_other_secret s cs _ hinv (by rw [hs1]; exact Option.some_ne_none _) hcs
  have h3 := h2 ""
  rw [hs1] at h1
  rw [hv1] at h3
  rw [getEntries_of_present _ _ s "" sv ⟨es⟩ h1 h3 hcmp, if_pos rfl]

theorem latest_alias_follows_last_write_witness :
    (run (sampleBackend.AddVersion "1" (some ["entryW"])).1
        [Call.createSecret (some keyB) none, Call.addVersion "2" (some ["entryV"])]).getEntries
      (some keyA) "1" "" = some (some ["entryW"], none) :=
  latest_alias_follows_last_write sampleBackend ⟨_, rfl⟩ "1" ⟨some keyA⟩ rfl (by decide)
    (some ["entryW"])
    [Call.createSecret (some keyB) none, Call.addVersion "2" (some ["entryV"])]
    (by decide)

/-- C7: in a reachable backend, `AddVersion(s, es)` returns a versionID `w` such that `(s, w)`
was not a key of `versionMap` before the call; afterwards every previously present key other
than `(s, "")` maps to the same value as before, `(s, w)` and `(s, "")` map to `es`, and every
read of a previously present non-empty versionID returns what it returned before. -/
theorem addVersion_preserves_versions [DecidableEq Key] [IamKey Key]
    (lb : LockboxBackend Key Entry) (hreach : Reachable lb) (s : String) (es : Slice Entry) :
    lb.versionMap.lookup ⟨s, (lb.AddVersion s es).2⟩ = none ∧
      (∀ key : versionKey, lb.versionMap.lookup key ≠ none → key ≠ ⟨s, ""⟩ →
        (lb.AddVersion s es).1.versionMap.lookup key = lb.versionMap.lookup key) ∧
      (lb.AddVersion s es).1.versionMap.lookup ⟨s, (lb.AddVersion s es).2⟩ = some ⟨es⟩ ∧
      (lb.AddVersion s es).1.versionMap.lookup ⟨s, ""⟩ = some ⟨es⟩ ∧
      (∀ (k : Option Key) (s' v : String), v ≠ "" → lb.versionMap.lookup ⟨s', v⟩ ≠ none →
        (lb.AddVersion s es).1.getEntries k s' v = lb.getEntries k s' v) := by
  have hinv := inv_of_reachable lb hreach
  have hfresh : lb.versionMap ⟨s, intToString (lb.lastVersionID.get ⟨s⟩ + 1)⟩ = none :=
    hinv.2 s _ (by omega)
  have hkeep : ∀ key : versionKey, lb.versionMap key ≠ none → key ≠ ⟨s, ""⟩ →
      (lb.AddVersion s es).1.versionMap key = lb.versionMap key := by
    intro key hkey hne
    rw [addVersion_versionMap]
    have h1 : key ≠ ⟨s, intToString (lb.lastVersionID.get ⟨s⟩ + 1)⟩ := by
      intro he
      exact hkey (he ▸ hfresh)
    simp [h1, hne]
  refine ⟨?_, hkeep, ?_, ?_, ?_⟩
  · rw [addVersion_ret]
    exact hfresh
  · show (lb.AddVersion s es).1.versionMap _ = _
    rw [addVersion_ret, addVersion_versionMap]
    simp
  · show (lb.AddVersion s es).1.versionMap _ = _
    rw [addVersion_versionMap]
    split_ifs <;> simp_all
  · intro k s' v hv hpresent
    have hsame := hkeep ⟨s', v⟩ hpresent (by
      intro he
      exact hv (versionKey.mk.inj he).2)
    simp only [LockboxBackend.getEntries, GoMap.lookup, GoMap.get, addVersion_secretMap, hsame]

theorem addVersion_preserves_versions_witness :
    (sampleBackend.AddVersion "1" (some ["entryW"])).2 = "3" ∧
      (sampleBackend.AddVersion "1" (some ["entryW"])).1.getEntries (some keyA) "1" "2"
        = some (some ["entryY"], none) :=
  ⟨by decide, by
    rw [(addVersion_preserves_versions sampleBackend ⟨_, rfl⟩ "1" (some ["entryW"])).2.2.2.2
      (some keyA) "1" "2" (by decide) (by
        have h : sampleBackend.versionMap.lookup ⟨"1", "2"⟩ = some ⟨some ["entryY"]⟩ := rfl
        rw [h]
        exact Option.some_ne_none _)]
    decide⟩

/-! ## Generated identifiers -/

theorem rendered_cons_range (a : Int) (n : Nat) :
    intToString (a + 1) :: (List.range n).map (fun i : Nat => intToString (a + 1 + i + 1)) =
      (List.range (n + 1)).map (fun i : Nat => intToString (a + i + 1)) := by
  rw [List.range_succ_eq_map, List.map_cons, List.map_map]
  congr 1
  · simp
  · apply List.map_congr_left
    intro i _
    show intToString (a + 1 + (i : Int) + 1) = intToString (a + ((i + 1 : Nat) : Int) + 1)
    congr 1
    push_cast
    ring

/-- Consecutive renderings are pairwise different and parse to increasing integers. -/
theorem rendered_range_increasing (a : Int) (n : Nat) :
    ((List.range n).map (fun i : Nat => intToString (a + i + 1))).Nodup ∧
      ((List.range n).map (fun i : Nat => intToString (a + i + 1))).Pairwise ParsesBelow := by
  constructor
  · unfold List.Nodup
    rw [List.pairwise_map]
    refine (List.pairwise_lt_range n).imp ?_
    intro i j hij he
    have := intToString_injective he
    omega
  · rw [List.pairwise_map]
    refine (List.pairwise_lt_range n).imp ?_
    intro i j hij
    exact ⟨_, _, parseInt_intToString _, parseInt_intToString _, by omega⟩

theorem createdIDs_trace (cs : List (Call Key Entry)) : ∀ lb : LockboxBackend Key Entry,
    createdIDs (trace lb cs) =
      (List.range (cs.filter Call.isCreate).length).map
        (fun i : Nat => intToString (lb.lastSecretID + i + 1)) := by
  induction cs with
  | nil => intro lb; rfl
  | cons c cs ih =>
    intro lb
    cases c with
    | createSecret k es =>
      have hrest := ih (lb.CreateSecret k es).1
      rw [createSecret_lastSecretID] at hrest
      have hcons : createdIDs (trace lb (Call.createSecret k es :: cs)) =
          intToString (lb.lastSecretID + 1) ::
            createdIDs (trace (lb.CreateSecret k es).1 cs) := rfl
      rw [hcons, hrest]
      simpa [Call.isCreate] using rendered_cons_range lb.lastSecretID _
    | addVersion s es =>
      have hrest := ih (lb.AddVersion s es).1
      rw [addVersion_lastSecretID] at hrest
      have hcons : createdIDs (trace lb (Call.addVersion s es :: cs)) =
          createdIDs (trace (lb.AddVersion s es).1 cs) := rfl
      rw [hcons, hrest]
      simp [Call.isCreate]

theorem run_lastSecretID (cs : List (Call Key Entry)) : ∀ lb : LockboxBackend Key Entry,
    (run lb cs).lastSecretID = lb.lastSecretID + (cs.filter Call.isCreate).length := by
  induction cs with
  | nil => intro lb; simp [run]
  | cons c cs ih =>
    intro lb
    cases c with
    | createSecret k es =>
      show (run (lb.CreateSecret k es).1 cs).lastSecretID = _
      rw [ih, createSecret_lastSecretID]
      simp [Call.isCreate]
      ring
    | addVersion s es =>
      show (run (lb.AddVersion s es).1 cs).lastSecretID = _
      rw [ih, addVersion_lastSecretID]
      simp [Call.isCreate]

/-- C8: on a new backend, for every sequence of `CreateSecret` and `AddVersion` calls, the
secretIDs returned by the `CreateSecret` calls are, in call order, the decimal renderings of
1, 2, 3, ...; they are pairwise different, parse to strictly increasing integers, and are the
same as when the `AddVersion` calls are left out. -/
theorem createSecret_ids_sequential (cs : List (Call Key Entry)) :
    createdIDs (trace NewLockboxBackend cs) =
        (List.range (cs.filter Call.isCreate).length).map
          (fun n : Nat => intToString ((n : Int) + 1)) ∧
      (createdIDs (trace NewLockboxBackend cs)).Nodup ∧
      (createdIDs (trace NewLockboxBackend cs)).Pairwise ParsesBelow ∧
      createdIDs (trace NewLockboxBackend cs) =
        createdIDs (trace NewLockboxBackend (cs.filter Call.isCreate)) := by
  have h0 : ∀ l : List (Call Key Entry), createdIDs (trace NewLockboxBackend l) =
      (List.range (l.filter Call.isCreate).length).map
        (fun n : Nat => intToString ((0 : Int) + n + 1)) := fun l =>
    createdIDs_trace l NewLockboxBackend
  have hinc := rendered_range_increasing 0 (cs.filter Call.isCreate).length
  rw [← h0 cs] at hinc
  refine ⟨?_, hinc.1, hinc.2, ?_⟩
  · rw [h0 cs]
    simp
  · rw [h0 cs, h0 (cs.filter Call.isCreate), List.filter_filter]
    simp

/-- The version counter of `s` is not moved by calls that neither add a version to `s` nor
create the secret `s`. -/
theorem run_lastVersionID_unchanged (s : String) (cs : List (Call Key Entry)) :
    ∀ lb : LockboxBackend Key Entry, (∀ c ∈ cs, c.addsVersionTo s = false) →
      (∀ j : Int, lb.lastSecretID < j → j ≤ (run lb cs).lastSecretID → intToString j ≠ s) →
      (run lb cs).lastVersionID.get ⟨s⟩ = lb.lastVersionID.get ⟨s⟩ := by
  induction cs with
  | nil => intro lb _ _; rfl
  | cons c cs ih =>
    intro lb hcs hids
    have hc := hcs c (List.mem_cons_self _ _)
    have hcs1 : ∀ c' ∈ cs, c'.addsVersionTo s = false :=
      fun c' hc' => hcs c' (List.mem_cons_of_mem _ hc')
    cases c with
    | createSecret k es =>
      have hlast := run_lastSecretID cs (lb.CreateSecret k es).1
      rw [createSecret_lastSecretID] at hlast
      have hrun : run lb (Call.createSecret k es :: cs) = run (lb.CreateSecret k es).1 cs := rfl
      rw [hrun] at hids ⊢
      have hne : (⟨s⟩ : secretKey) ≠ ⟨intToString (lb.lastSecretID + 1)⟩ := by
        intro he
        exact hids (lb.lastSecretID + 1) (by omega) (by omega) (secretKey.mk.inj he).symm
      rw [ih (lb.CreateSecret k es).1 hcs1 (fun j h1 h2 => hids j (by
        rw [createSecret_lastSecretID] at h1; omega) h2), createSecret_lastVersionID]
      simp [hne]
    | addVersion s' es =>
      have hrun : run lb (Call.addVersion s' es :: cs) = run (lb.AddVersion s' es).1 cs := rfl
      rw [hrun] at hids ⊢
      have hne : (⟨s⟩ : secretKey) ≠ ⟨s'⟩ := by
        intro he
        simp [Call.addsVersionTo, (secretKey.mk.inj he).symm] at hc
      rw [ih (lb.AddVersion s' es).1 hcs1 (fun j h1 h2 => hids j h1 h2),
        addVersion_lastVersionID]
      simp [hne]

/-- C9, refuted as stated: after `AddVersion("1", ...)` on a new backend, `CreateSecret`
returns the secretID "1" with the versionID "2", not "1". -/
theorem createSecret_versionID_not_always_one :
    ¬ (∀ lb : LockboxBackend String String, Reachable lb →
        ∀ (k : Option String) (es : Slice String), (lb.CreateSecret k es).2.2 = "1") := by
  intro h
  have h2 := h (run NewLockboxBackend [Call.addVersion "1" (some ["entryY"])]) ⟨_, rfl⟩
    (some "keyA") (some ["entryX"])
  revert h2
  decide

/-- C9, amended: after any sequence of `CreateSecret` and `AddVersion` calls on a new backend
in which no `AddVersion` call was made on the secretID that `CreateSecret` now returns, the
versionID returned by `CreateSecret` is "1". -/
theorem createSecret_initial_version (cs : List (Call Key Entry)) (k : Option Key)
    (es : Slice Entry)
    (hcs : ∀ c ∈ cs,
      c.addsVersionTo ((run NewLockboxBackend cs).CreateSecret k es).2.1 = false) :
    ((run NewLockboxBackend cs).CreateSecret k es).2.2 = "1" := by
  rw [createSecret_secretID] at hcs
  rw [createSecret_versionID,
    run_lastVersionID_unchanged _ cs NewLockboxBackend hcs (fun j _ h2 he => by
      have := intToString_injective he
      omega)]
  rfl

theorem createSecret_initial_version_witness :
    ((run (NewLockboxBackend : LockboxBackend String String)
        [Call.createSecret (some "keyA") (some ["entryX"]),
         Call.addVersion "1" (some ["entryY"])]).CreateSecret (some "keyB") none).2
      = ("2", "1") :=
  Prod.ext rfl (createSecret_initial_version
    [Call.createSecret (some "keyA") (some ["entryX"]), Call.addVersion "1" (some ["entryY"])]
    (some "keyB") none (by decide))

theorem versionIDsFor_trace (s : String) (cs : List (Call Key Entry)) :
    ∀ lb : LockboxBackend Key Entry,
      versionIDsFor s (trace lb cs) =
        (List.range ((trace lb cs).filter (generatesVersionFor s)).length).map
          (fun i : Nat => intToString (lb.lastVersionID.get ⟨s⟩ + i + 1)) := by
  induction cs with
  | nil => intro lb; rfl
  | cons c cs ih =>
    intro lb
    cases c with
    | createSecret k es =>
      have hrest := ih (lb.CreateSecret k es).1
      have htrace : trace lb (Call.createSecret k es :: cs) =
          (Call.createSecret k es,
              Returned.created (lb.CreateSecret k es).2.1 (lb.CreateSecret k es).2.2) ::
            trace (lb.CreateSecret k es).1 cs := rfl
      rw [createSecret_lastVersionID] at hrest
      rw [htrace]
      by_cases hs : intToString (lb.lastSecretID + 1) = s
      · subst hs
        have hgen : generatesVersionFor (intToString (lb.lastSecretID + 1))
            (Call.createSecret k es,
              Returned.created (lb.CreateSecret k es).2.1 (lb.CreateSecret k es).2.2) = true := by
          simp [generatesVersionFor, createSecret_secretID]
        rw [if_pos rfl] at hrest
        simp only [versionIDsFor, List.filter_cons, hgen, if_true, List.map_cons,
          List.length_cons] at hrest ⊢
        rw [hrest, ← rendered_cons_range]
        simp [Returned.versionID, createSecret_versionID]
      · have hgen : generatesVersionFor s (Call.createSecret k es,
            Returned.created (lb.CreateSecret k es).2.1 (lb.CreateSecret k es).2.2) = false := by
          simp [generatesVersionFor, createSecret_secretID, hs]
        have hkey : (⟨s⟩ : secretKey) ≠ ⟨intToString (lb.lastSecretID + 1)⟩ :=
          fun he => hs (secretKey.mk.inj he).symm
        rw [if_neg hkey] at hrest
        simp only [versionIDsFor, List.filter_cons, hgen] at hrest ⊢
        exact hrest
    | addVersion s' es =>
      have hrest := ih (lb.AddVersion s' es).1
      have htrace : trace lb (Call.addVersion s' es :: cs) =
          (Call.addVersion s' es, Returned.added (lb.AddVersion s' es).2) ::
            trace (lb.AddVersion s' es).1 cs := rfl
      rw [addVersion_lastVersionID] at hrest
      rw [htrace]
      by_cases hs : s' = s
      · subst hs
        have hgen : generatesVersionFor s'
            ((Call.addVersion s' es : Call Key Entry),
              Returned.added (lb.AddVersion s' es).2) = true := by
          simp [generatesVersionFor]
        rw [if_pos rfl] at hrest
        simp only [versionIDsFor, List.filter_cons, hgen, if_true, List.map_cons,
          List.length_cons] at hrest ⊢
        rw [hrest, ← rendered_cons_range]
        simp [Returned.versionID, addVersion_ret]
      · have hgen : generatesVersionFor s
            ((Call.addVersion s' es : Call Key Entry),
              Returned.added (lb.AddVersion s' es).2) = false := by
          simp [generatesVersionFor, hs]
        have hkey : (⟨s⟩ : secretKey) ≠ ⟨s'⟩ := fun he => hs (secretKey.mk.inj he).symm
        rw [if_neg hkey] at hrest
        simp only [versionIDsFor, List.filter_cons, hgen] at hrest ⊢
        exact hrest

/-- C10: on a new backend, for every sequence of `CreateSecret` and `AddVersion` calls and
every secretID `s`, the versionIDs returned by the calls that generate a version for `s` (the
`AddVersion(s, ...)` calls and the `CreateSecret` call that returned `s`) are, in call order,
the decimal renderings of 1, 2, 3, ..., whatever calls on other secrets lie between them; so
they are pairwise different and parse to strictly increasing integers. -/
theorem versionIDs_sequential_per_secret (s : String) (cs : List (Call Key Entry)) :
    versionIDsFor s (trace NewLockboxBackend cs) =
        (List.range ((trace NewLockboxBackend cs).filter (generatesVersionFor s)).length).map
          (fun j : Nat => intToString ((j : Int) + 1)) ∧
      (versionIDsFor s (trace NewLockboxBackend cs)).Nodup ∧
      (versionIDsFor s (trace NewLockboxBackend cs)).Pairwise ParsesBelow := by
  have h0 : versionIDsFor s (trace NewLockboxBackend cs) =
      (List.range ((trace NewLockboxBackend cs).filter (generatesVersionFor s)).length).map
        (fun j : Nat => intToString ((0 : Int) + j + 1)) :=
    versionIDsFor_trace s cs NewLockboxBackend
  have hinc := rendered_range_increasing 0
    ((trace (NewLockboxBackend : LockboxBackend Key Entry) cs).filter
      (generatesVersionFor s)).length
  rw [← h0] at hinc
  refine ⟨?_, hinc.1, hinc.2⟩
  rw [h0]
  simp

/-! ## Credentials and the latest alias -/

/-- No seeding call rewrites the credential of a secret that exists. -/
theorem step_secretMap_present (lb : LockboxBackend Key Entry) (hinv : Inv lb) (s : String)
    (hs : lb.secretMap ⟨s⟩ ≠ none) (c : Call Key Entry) :
    (step lb c).1.secretMap ⟨s⟩ = lb.secretMap ⟨s⟩ := by
  cases c with
  | createSecret k es =>
    have hne : s ≠ intToString (lb.lastSecretID + 1) := by
      intro he
      exact hs (he ▸ hinv.1 (lb.lastSecretID + 1) (by omega))
    show (lb.CreateSecret k es).1.secretMap ⟨s⟩ = _
    rw [createSecret_secretMap]
    simp [hne]
  | addVersion s' es => rfl

theorem run_secretMap_present (s : String) (cs : List (Call Key Entry)) :
    ∀ lb : LockboxBackend Key Entry, Inv lb → lb.secretMap ⟨s⟩ ≠ none →
      (run lb cs).secretMap ⟨s⟩ = lb.secretMap ⟨s⟩ := by
  induction cs with
  | nil => intro lb _ _; rfl
  | cons c cs ih =>
    intro lb hinv hs
    have h1 := step_secretMap_present lb hinv s hs c
    exact (ih (step lb c).1 (inv_step lb hinv c) (by rw [h1]; exact hs)).trans h1

/-- C11: in a reachable backend, the secretID `s` that `CreateSecret(k, es)` returns was not a
key of `secretMap` before the call, `AddVersion` leaves `secretMap` as it is, and after any
further sequence of `CreateSecret` and `AddVersion` calls the credential stored for `s` is
still `k`. -/
theorem credential_immutable (lb : LockboxBackend Key Entry) (hreach : Reachable lb)
    (k : Option Key) (es : Slice Entry) (cs : List (Call Key Entry)) :
    lb.secretMap.lookup ⟨(lb.CreateSecret k es).2.1⟩ = none ∧
      (∀ (s : String) (es' : Slice Entry), (lb.AddVersion s es').1.secretMap = lb.secretMap) ∧
      (run (lb.CreateSecret k es).1 cs).secretMap.lookup ⟨(lb.CreateSecret k es).2.1⟩
        = some ⟨k⟩ := by
  have hinv := inv_of_reachable lb hreach
  have hnew : (lb.CreateSecret k es).1.secretMap ⟨(lb.CreateSecret k es).2.1⟩ = some ⟨k⟩ := by
    rw [createSecret_secretMap, createSecret_secretID]
    simp
  refine ⟨hinv.1 (lb.lastSecretID + 1) (by omega), fun _ _ => rfl, ?_⟩
  show (run (lb.CreateSecret k es).1 cs).secretMap _ = _
  rw [run_secretMap_present _ cs _ (inv_createSecret lb hinv k es)
    (by rw [hnew]; exact Option.some_ne_none _)]
  exact hnew

theorem credential_immutable_witness :
    (run (sampleBackend.CreateSecret (some keyB) none).1
        [Call.addVersion "2" (some ["entryV"]), Call.createSecret (some keyC) none,
         Call.addVersion "1" none]).secretMap.lookup ⟨"2"⟩ = some ⟨some keyB⟩ :=
  (credential_immutable sampleBackend ⟨_, rfl⟩ (some keyB) none
    [Call.addVersion "2" (some ["entryV"]), Call.createSecret (some keyC) none,
     Call.addVersion "1" none]).2.2

/-- A call that stores `es` under a new version of `s` and under its alias, and moves only the
version counter of `s`, keeps the alias invariant. -/
theorem aliasInv_of_write (lb lb1 : LockboxBackend Key Entry) (s : String) (es : Slice Entry)
    (hmap : ∀ key : versionKey, lb1.versionMap key =
      if key = ⟨s, intToString (lb.lastVersionID.get ⟨s⟩ + 1)⟩ then some ⟨es⟩
      else if key = ⟨s, ""⟩ then some ⟨es⟩ else lb.versionMap key)
    (hcnt : ∀ key : secretKey, lb1.lastVersionID.get key =
      if key = ⟨s⟩ then lb.lastVersionID.get ⟨s⟩ + 1 else lb.lastVersionID.get key)
    (h : AliasInv lb) : AliasInv lb1 := by
  intro s0
  by_cases hs : s0 = s
  · subst hs
    right
    have hw : intToString (lb.lastVersionID.get ⟨s0⟩ + 1) ≠ "" := intToString_ne_empty _
    rw [hmap ⟨s0, ""⟩, hmap ⟨s0, intToString (lb1.lastVersionID.get ⟨s0⟩)⟩, hcnt ⟨s0⟩]
    simp [hw.symm]
  · have hsame : ∀ v, lb1.versionMap ⟨s0, v⟩ = lb.versionMap ⟨s0, v⟩ := by
      intro v
      rw [hmap ⟨s0, v⟩]
      simp [hs]
    have hk : (⟨s0⟩ : secretKey) ≠ ⟨s⟩ := fun he => hs (secretKey.mk.inj he)
    rcases h s0 with hnone | ⟨hne, heq⟩
    · left
      intro v
      rw [hsame v]
      exact hnone v
    · right
      rw [hsame, hsame, hcnt ⟨s0⟩, if_neg hk]
      exact ⟨hne, heq⟩

theorem aliasInv_step (lb : LockboxBackend Key Entry) (h : AliasInv lb) (c : Call Key Entry) :
    AliasInv (step lb c).1 := by
  cases c with
  | createSecret k es =>
    exact aliasInv_of_write lb (lb.CreateSecret k es).1 (intToString (lb.lastSecretID + 1)) es
      (createSecret_versionMap lb k es) (createSecret_lastVersionID lb k es) h
  | addVersion s es =>
    exact aliasInv_of_write lb (lb.AddVersion s es).1 s es
      (addVersion_versionMap lb s es) (addVersion_lastVersionID lb s es) h

theorem aliasInv_of_reachable (lb : LockboxBackend Key Entry) (h : Reachable lb) :
    AliasInv lb := by
  obtain ⟨cs, rfl⟩ := h
  have hrun : ∀ (l : List (Call Key Entry)) (lb0 : LockboxBackend Key Entry),
      AliasInv lb0 → AliasInv (run lb0 l) := by
    intro l
    induction l with
    | nil => intro lb0 h0; exact h0
    | cons c l ih => intro lb0 h0; exact ih _ (aliasInv_step lb0 h0 c)
  exact hrun cs _ (fun _ => Or.inl fun _ => rfl)

/-- C12: in a reachable backend, for every secretID `s` with at least one stored version, the
alias `(s, "")` is present and holds exactly what is stored under `(s, w)`, `w` being the
rendering of the counter `lastVersionID[s]`; and nothing is stored for `s` under the rendering
of a larger number, so `w` is the highest-numbered version of `s`. -/
theorem alias_is_latest_version (lb : LockboxBackend Key Entry) (hreach : Reachable lb)
    (s v : String) (hv : lb.versionMap.lookup ⟨s, v⟩ ≠ none) :
    lb.versionMap.lookup ⟨s, ""⟩ ≠ none ∧
      lb.versionMap.lookup ⟨s, ""⟩ =
        lb.versionMap.lookup ⟨s, intToString (lb.lastVersionID.get ⟨s⟩)⟩ ∧
      ∀ j : Int, lb.lastVersionID.get ⟨s⟩ < j →
        lb.versionMap.lookup ⟨s, intToString j⟩ = none := by
  rcases aliasInv_of_reachable lb hreach s with hnone | ⟨hne, heq⟩
  · exact absurd (hnone v) hv
  · exact ⟨hne, heq, (inv_of_reachable lb hreach).2 s⟩

theorem alias_is_latest_version_witness :
    sampleBackend.versionMap.lookup ⟨"1", ""⟩ = sampleBackend.versionMap.lookup ⟨"1", "2"⟩ ∧
      sampleBackend.versionMap.lookup ⟨"9", ""⟩ = sampleBackend.versionMap.lookup ⟨"9", "1"⟩ :=
  ⟨(alias_is_latest_version sampleBackend ⟨_, rfl⟩ "1" "1" (by
      have h : sampleBackend.versionMap.lookup ⟨"1", "1"⟩ = some ⟨some ["entryX"]⟩ := rfl
      rw [h]
      exact Option.some_ne_none _)).2.1,
   (alias_is_latest_version sampleBackend ⟨_, rfl⟩ "9" "1" (by
      have h : sampleBackend.versionMap.lookup ⟨"9", "1"⟩ = some ⟨some ["entryZ"]⟩ := rfl
      rw [h]
      exact Option.some_ne_none _)).2.1⟩

/-! ## The client -/

/-- C13: for every backend, endpoint `e` and credential `k`, `Create(e, k)` returns a client
and no error; that client's `GetPayloadEntries(s, v)` returns the same `(entries, error)` pair
as the backend's `getEntries(k, s, v)`; and neither depends on `e`. -/
theorem create_client_delegates [DecidableEq Key] [IamKey Key]
    (lcc : LockboxClientCreator Key Entry) (e : String) (k : Option Key) :
    (lcc.Create e k).2 = none ∧
      (∀ s v : String,
        (lcc.Create e k).1.GetPayloadEntries s v = lcc.Backend.getEntries k s v) ∧
      ∀ e2 : String, lcc.Create e2 k = lcc.Create e k :=
  ⟨rfl, fun _ _ => rfl, fun _ => rfl⟩

/-- The backend of the scenario: a secret created with `keyA` and `entryX`, then a second
version with `entryY`. -/
theorem scenario_backend_maps (keyA : Option Key) (entryX entryY : Entry) :
    (run (NewLockboxBackend : LockboxBackend Key Entry)
        [Call.createSecret keyA (some [entryX]),
         Call.addVersion "1" (some [entryY])]).secretMap ⟨"1"⟩ = some ⟨keyA⟩ ∧
      (run (NewLockboxBackend : LockboxBackend Key Entry)
        [Call.createSecret keyA (some [entryX]),
         Call.addVersion "1" (some [entryY])]).versionMap ⟨"1", ""⟩ = some ⟨some [entryY]⟩ ∧
      (run (NewLockboxBackend : LockboxBackend Key Entry)
        [Call.createSecret keyA (some [entryX]),
         Call.addVersion "1" (some [entryY])]).versionMap ⟨"1", "1"⟩ = some ⟨some [entryX]⟩ ∧
      (run (NewLockboxBackend : LockboxBackend Key Entry)
        [Call.createSecret keyA (some [entryX]),
         Call.addVersion "1" (some [entryY])]).versionMap ⟨"1", "2"⟩ = some ⟨some [entryY]⟩ := by
  have h1 : intToString 1 = "1" := by decide
  have h2 : intToString 2 = "2" := by decide
  have h12 : ("1" : String) ≠ "2" := by decide
  have h1e : ("1" : String) ≠ "" := by decide
  have h2e : ("2" : String) ≠ "" := by decide
  refine ⟨?_, ?_, ?_, ?_⟩ <;>
    simp [run, step, LockboxBackend.CreateSecret, LockboxBackend.AddVersion,
      LockboxBackend.genSecretID, LockboxBackend.genVersionID, NewLockboxBackend, GoMap.get,
      GoMap.set, GoMap.empty, h1, h2, h12, h12.symm, h1e, h1e.symm, h2e, h2e.symm]

/-- C14: on a new backend, with a credential `keyA` on which `cmp.Equal` is defined (nil, or
without `CreatedAt`), `CreateSecret(keyA, entryX)` returns `("1", "1")`, then
`AddVersion("1", entryY)` returns `"2"`, and then a client made with `keyA` gets `[entryY]` for
`("1", "")`, `[entryX]` for `("1", "1")` and `[entryY]` for `("1", "2")`, each without error. -/
theorem scenario_create_add_read [DecidableEq Key] [IamKey Key] (keyA : Option Key)
    (hA : cmpPanics keyA keyA = false) (entryX entryY : Entry) (e : String) :
    ((NewLockboxBackend : LockboxBackend Key Entry).CreateSecret keyA (some [entryX])).2
        = ("1", "1") ∧
      (((NewLockboxBackend : LockboxBackend Key Entry).CreateSecret keyA (some [entryX])).1.AddVersion
          "1" (some [entryY])).2 = "2" ∧
      ((LockboxClientCreator.mk
          (run (NewLockboxBackend : LockboxBackend Key Entry)
            [Call.createSecret keyA (some [entryX]),
             Call.addVersion "1" (some [entryY])])).Create e keyA).1.GetPayloadEntries "1" ""
        = some (some [entryY], none) ∧
      ((LockboxClientCreator.mk
          (run (NewLockboxBackend : LockboxBackend Key Entry)
            [Call.createSecret keyA (some [entryX]),
             Call.addVersion "1" (some [entryY])])).Create e keyA).1.GetPayloadEntries "1" "1"
        = some (some [entryX], none) ∧
      ((LockboxClientCreator.mk
          (run (NewLockboxBackend : LockboxBackend Key Entry)
            [Call.createSecret keyA (some [entryX]),
             Call.addVersion "1" (some [entryY])])).Create e keyA).1.GetPayloadEntries "1" "2"
        = some (some [entryY], none) := by
  obtain ⟨hs, hv0, hv1, hv2⟩ := scenario_backend_maps keyA entryX entryY
  refine ⟨rfl, rfl, ?_, ?_, ?_⟩
  · have h := getEntries_of_present _ keyA "1" "" ⟨keyA⟩ _ hs hv0 hA
    rw [if_pos rfl] at h
    exact h
  · have h := getEntries_of_present _ keyA "1" "1" ⟨keyA⟩ _ hs hv1 hA
    rw [if_pos rfl] at h
    exact h
  · have h := getEntries_of_present _ keyA "1" "2" ⟨keyA⟩ _ hs hv2 hA
    rw [if_pos rfl] at h
    exact h

theorem scenario_create_add_read_witness :
    ((LockboxClientCreator.mk
        (run (NewLockboxBackend : LockboxBackend SampleKey String)
          [Call.createSecret (some keyA) (some ["entryX"]),
           Call.addVersion "1" (some ["entryY"])])).Create "api.example" (some keyA)).1.GetPayloadEntries
        "1" "" = some (some ["entryY"], none) :=
  (scenario_create_add_read (some keyA) (by decide) "entryX" "entryY" "api.example").2.2.1

/-! ## Seeding around secrets that do not exist -/

/-- C15: when `s` is not a key of `secretMap`, `AddVersion(s, es)` still returns a versionID
`w` and stores `es` under `(s, w)` and `(s, "")`, leaves `secretMap` as it is, and afterwards
`getEntries(k, s, v)` returns the error "secret not found" for every credential and
versionID. -/
theorem addVersion_unknown_secret [DecidableEq Key] [IamKey Key]
    (lb : LockboxBackend Key Entry) (s : String) (hs : lb.secretMap.lookup ⟨s⟩ = none)
    (es : Slice Entry) :
    (lb.AddVersion s es).1.versionMap.lookup ⟨s, (lb.AddVersion s es).2⟩ = some ⟨es⟩ ∧
      (lb.AddVersion s es).1.versionMap.lookup ⟨s, ""⟩ = some ⟨es⟩ ∧
      (lb.AddVersion s es).1.secretMap = lb.secretMap ∧
      ∀ (k : Option Key) (v : String),
        (lb.AddVersion s es).1.getEntries k s v = some (none, some "secret not found") := by
  refine ⟨?_, ?_, rfl, fun k v => ?_⟩
  · show (lb.AddVersion s es).1.versionMap _ = _
    rw [addVersion_ret, addVersion_versionMap]
    simp
  · show (lb.AddVersion s es).1.versionMap _ = _
    rw [addVersion_versionMap]
    split_ifs <;> simp_all
  · unfold LockboxBackend.getEntries
    rw [addVersion_secretMap]
    simp [hs]

theorem addVersion_unknown_secret_witness :
    (sampleBackend.AddVersion "7" (some ["entryW"])).2 = "1" ∧
      (sampleBackend.AddVersion "7" (some ["entryW"])).1.getEntries (some keyA) "7" "1"
        = some (none, some "secret not found") :=
  ⟨by decide,
    (addVersion_unknown_secret sampleBackend "7" rfl (some ["entryW"])).2.2.2 (some keyA) "1"⟩

/-- C17: in a reachable backend, the secretID `s` that `CreateSecret(k, es)` returns was not a
key of `secretMap` before the call, and for every other secretID every read returns after the
call what it returned before, and its version counter is unchanged. -/
theorem createSecret_isolated [DecidableEq Key] [IamKey Key] (lb : LockboxBackend Key Entry)
    (hreach : Reachable lb) (k : Option Key) (es : Slice Entry) :
    lb.secretMap.lookup ⟨(lb.CreateSecret k es).2.1⟩ = none ∧
      ∀ s2 : String, s2 ≠ (lb.CreateSecret k es).2.1 →
        (∀ (k2 : Option Key) (v : String),
          (lb.CreateSecret k es).1.getEntries k2 s2 v = lb.getEntries k2 s2 v) ∧
        (lb.CreateSecret k es).1.lastVersionID.get ⟨s2⟩ = lb.lastVersionID.get ⟨s2⟩ := by
  have hinv := inv_of_reachable lb hreach
  refine ⟨hinv.1 (lb.lastSecretID + 1) (by omega), fun s2 hs2 => ⟨fun k2 v => ?_, ?_⟩⟩
  · rw [createSecret_secretID] at hs2
    have hsec : (lb.CreateSecret k es).1.secretMap ⟨s2⟩ = lb.secretMap ⟨s2⟩ := by
      rw [createSecret_secretMap]
      simp [hs2]
    have hver : (lb.CreateSecret k es).1.versionMap ⟨s2, v⟩ = lb.versionMap ⟨s2, v⟩ := by
      rw [createSecret_versionMap]
      simp [hs2]
    simp only [LockboxBackend.getEntries, GoMap.lookup, GoMap.get, hsec, hver]
  · rw [createSecret_secretID] at hs2
    rw [createSecret_lastVersionID]
    simp [hs2]

theorem createSecret_isolated_witness :
    (sampleBackend.CreateSecret (some keyB) (some ["entryW"])).2.1 = "2" ∧
      (sampleBackend.CreateSecret (some keyB) (some ["entryW"])).1.getEntries
          (some keyA) "1" "" = sampleBackend.getEntries (some keyA) "1" "" :=
  ⟨by decide,
    ((createSecret_isolated sampleBackend ⟨_, rfl⟩ (some keyB) (some ["entryW"])).2 "1"
      (by decide)).1 (some keyA) ""⟩

/-- C18: on a new backend, with a credential `keyA` on which `cmp.Equal` is defined (nil, or
without `CreatedAt`), `AddVersion("1", entryY)` returns `"1"`, the following
`CreateSecret(keyA, entryX)` returns `("1", "2")`, and then `getEntries(keyA, "1", "1")`
returns `[entryY]` without error: entries stored before secret "1" had a credential, and
never passed to `CreateSecret`, are read with the credential given to it later. -/
theorem scenario_add_before_create [DecidableEq Key] [IamKey Key] (keyA : Option Key)
    (hA : cmpPanics keyA keyA = false) (entryX entryY : Entry) :
    ((NewLockboxBackend : LockboxBackend Key Entry).AddVersion "1" (some [entryY])).2 = "1" ∧
      ((NewLockboxBackend : LockboxBackend Key Entry).secretMap.lookup ⟨"1"⟩ = none ∧
        ((NewLockboxBackend : LockboxBackend Key Entry).AddVersion "1"
          (some [entryY])).1.secretMap.lookup ⟨"1"⟩ = none) ∧
      ((((NewLockboxBackend : LockboxBackend Key Entry).AddVersion "1"
          (some [entryY])).1.CreateSecret keyA (some [entryX])).2 = ("1", "2")) ∧
      (run (NewLockboxBackend : LockboxBackend Key Entry)
          [Call.addVersion "1" (some [entryY]),
           Call.createSecret keyA (some [entryX])]).getEntries keyA "1" "1"
        = some (some [entryY], none) := by
  have h1 : intToString 1 = "1" := by decide
  have h2 : intToString 2 = "2" := by decide
  have h12 : ("1" : String) ≠ "2" := by decide
  have h1e : ("1" : String) ≠ "" := by decide
  have hs : (run (NewLockboxBackend : LockboxBackend Key Entry)
      [Call.addVersion "1" (some [entryY]),
       Call.createSecret keyA (some [entryX])]).secretMap ⟨"1"⟩ = some ⟨keyA⟩ := by
    simp [run, step, LockboxBackend.CreateSecret, LockboxBackend.AddVersion,
      LockboxBackend.genSecretID, LockboxBackend.genVersionID, NewLockboxBackend, GoMap.get,
      GoMap.set, GoMap.empty, h1]
  have hv : (run (NewLockboxBackend : LockboxBackend Key Entry)
      [Call.addVersion "1" (some [entryY]),
       Call.createSecret keyA (some [entryX])]).versionMap ⟨"1", "1"⟩
        = some ⟨some [entryY]⟩ := by
    simp [run, step, LockboxBackend.CreateSecret, LockboxBackend.AddVersion,
      LockboxBackend.genSecretID, LockboxBackend.genVersionID, NewLockboxBackend, GoMap.get,
      GoMap.set, GoMap.empty, h1, h2, h12, h12.symm, h1e, h1e.symm]
  refine ⟨rfl, ⟨rfl, rfl⟩, rfl, ?_⟩
  rw [getEntries_of_present _ keyA "1" "1" ⟨keyA⟩ _ hs hv hA, if_pos rfl]

theorem scenario_add_before_create_witness :
    (run (NewLockboxBackend : LockboxBackend SampleKey String)
        [Call.addVersion "1" (some ["entryY"]),
         Call.createSecret (some keyA) (some ["entryX"])]).getEntries (some keyA) "1" "1"
      = some (some ["entryY"], none) :=
  (scenario_add_before_create (some keyA) (by decide) "entryX" "entryY").2.2.2

/-! ## Reads leave the backend alone -/

theorem getEntriesM_run [DecidableEq Key] [IamKey Key] (lb : LockboxBackend Key Entry)
    (k : Option Key) (s v : String) :
    (getEntriesM k s v).run lb = (lb.getEntries k s v, lb) := by
  by_cases h1 : (lb.secretMap.lookup ⟨s⟩).isNone = true
  · simp [getEntriesM, LockboxBackend.getEntries, StateT.run, bind, StateT.bind, pure,
      StateT.pure, lookupSecretM, h1]
  · by_cases h2 : (lb.versionMap.lookup ⟨s, v⟩).isNone = true
    · simp [getEntriesM, LockboxBackend.getEntries, StateT.run, bind, StateT.bind, pure,
        StateT.pure, lookupSecretM, lookupVersionM, h1, h2]
    · cases h3 : cmpEqual k (lb.secretMap.get ⟨s⟩).expectedAuthorizedKey with
      | none =>
        simp [getEntriesM, LockboxBackend.getEntries, StateT.run, bind, StateT.bind, pure,
          StateT.pure, lookupSecretM, lookupVersionM, getSecretM, getVersionM, h1, h2, h3]
      | some equal =>
        cases equal <;>
          simp [getEntriesM, LockboxBackend.getEntries, StateT.run, bind, StateT.bind, pure,
            StateT.pure, lookupSecretM, lookupVersionM, getSecretM, getVersionM, h1, h2, h3]

/-- C16: a read leaves the backend as it found it: after `getEntries`, and so after the
client's `GetPayloadEntries` and `Close`, the backend is the one before the call, with the same
`lastSecretID`, `lastVersionID`, `secretMap` and `versionMap`, whichever of the four paths the
read takes, and also when `cmp.Equal` panics; and the same read made again returns the same
result. -/
theorem reads_do_not_mutate [DecidableEq Key] [IamKey Key] (lb : LockboxBackend Key Entry)
    (k : Option Key) (s v : String) :
    ((getEntriesM k s v).run lb).2 = lb ∧
      ((GetPayloadEntriesM k s v).run lb).2 = lb ∧
      ((CloseM : StateM (LockboxBackend Key Entry) GoError).run lb).2 = lb ∧
      ((getEntriesM k s v).run lb).1 = lb.getEntries k s v ∧
      ((getEntriesM k s v).run ((getEntriesM k s v).run lb).2).1
        = ((getEntriesM k s v).run lb).1 := by
  have h := getEntriesM_run lb k s v
  refine ⟨?_, ?_, rfl, ?_, ?_⟩
  · rw [h]
  · show ((getEntriesM k s v).run lb).2 = lb
    rw [h]
  · rw [h]
  · rw [h, h]

/-! ## Concrete checks -/

theorem intToString_samples :
    intToString 120 = "120" ∧ intToString (-7) = "-7" ∧ intToString 0 = "0" := by decide

theorem parseInt_samples :
    parseInt "120" = some 120 ∧ parseInt "-7" = some (-7) ∧ parseInt "" = none ∧
      parseInt "-" = none ∧ parseInt "1x" = none := by decide

theorem sampleBackend_reads :
    sampleBackend.getEntries (some keyA) "1" "" = some (some ["entryY"], none) ∧
      sampleBackend.getEntries (some keyA) "1" "1" = some (some ["entryX"], none) ∧
      sampleBackend.getEntries (some keyA) "1" "2" = some (some ["entryY"], none) ∧
      stampedBackend.getEntries (some keyT) "1" "1" = none ∧
      stampedBackend.getEntries (some keyU) "1" "1" = none ∧
      stampedBackend.getEntries (some keyA) "1" "1" = some (none, some "permission denied") ∧
      stampedBackend.getEntries (some keyT) "1" "5" = some (none, some "version not found") := by
  refine ⟨?_, ?_, ?_, ?_, ?_, ?_, ?_⟩ <;> decide

theorem trace_samples :
    createdIDs (trace (NewLockboxBackend : LockboxBackend String String)
        [Call.createSecret none none, Call.addVersion "1" none, Call.createSecret none none])
      = ["1", "2"] ∧
    versionIDsFor "1" (trace (NewLockboxBackend : LockboxBackend String String)
        [Call.addVersion "1" none, Call.createSecret none none, Call.addVersion "2" none,
         Call.addVersion "1" none])
      = ["1", "2", "3"] := by decide

end Fake
